import Mathlib

/-!
Verification development for the NeuroCarto probe abstraction and
electrode-selection engine: the electrode descriptor data model, the
blueprint codec, channel-map validity, the category-driven electrode
selector, and the area/channel efficiency metrics defined in the
repository's statistics notebook.

The `selected` and `request` functions and the `Aeff`/`Ceff` formulas are
translated directly from the statistics notebook in the repository.  The
concrete implementations of the probe contract (`NpxProbeDesp` methods such
as `save_blueprint`, `load_blueprint`, `new_channelmap`, `is_valid`,
`probe_rule`, `select_electrodes`, and `ElectrodeDesp` equality) are only
declared, not implemented, in the repository files; those operations are
modelled from the specification, as noted on each definition.
-/

namespace Neurocarto

/-- Electrode identity for a Neuropixels-style probe: `(shank, column, row)`. -/
abbrev NpxId := Nat × Nat × Nat

/-- Electrode state: not used, and selectable. -/
def STATE_UNUSED : Nat := 0

/-- Electrode state: selected as a channel. -/
def STATE_USED : Nat := 1

/-- Electrode state: not used and not selectable; set only by the program. -/
def STATE_FORBIDDEN : Nat := 2

/-- Category: initial category value, no intent. -/
def CATE_UNSET : Nat := 0

/-- Category: pre-selected category, must be selected if possible. -/
def CATE_SET : Nat := 1

/-- Category: never to be selected. -/
def CATE_FORBIDDEN : Nat := 2

/-- Category: random selected, less priority. -/
def CATE_LOW : Nat := 3

/-- Category: full-density tier (code from the extending notebook). -/
def CATE_FULL : Nat := 11

/-- Category: half-density tier (code from the extending notebook). -/
def CATE_HALF : Nat := 12

/-- Category: quarter-density tier (code from the extending notebook). -/
def CATE_QUARTER : Nat := 13

/-- The electrode descriptor: planar position, hashable identity, display
channel, state and category, as declared in the extending notebook
(`ElectrodeDesp` with `NpxElectrodeDesp.electrode : tuple[int, int, int]`). -/
structure ElectrodeDesp where
  x : Int := 0
  y : Int := 0
  electrode : NpxId
  channel : Nat := 0
  state : Nat := 0
  category : Nat := 0
deriving DecidableEq

/-- Modelled from the spec: `ElectrodeDesp.__eq__` is declared but not
implemented under src; the spec says two descriptors are equal iff their
identities are equal, regardless of other fields. -/
def ElectrodeDesp.eqDesp (e1 e2 : ElectrodeDesp) : Bool :=
  e1.electrode == e2.electrode

/-- A concrete injective encoding of the identity triple, standing for the
hash value of the identity tuple. -/
def idHash (p : NpxId) : Nat :=
  (p.1 * 1000003 + p.2.1) * 1000003 + p.2.2

/-- Modelled from the spec: `ElectrodeDesp.__hash__` is declared but not
implemented under src; the spec says the hash depends only on the identity. -/
def ElectrodeDesp.hashDesp (e : ElectrodeDesp) : Nat :=
  idHash e.electrode

/-- The channel map: probe-type code plus the collection of electrodes
currently wired to channels (statistics notebook: `ChannelMap(24)`). -/
structure ChannelMap where
  probeType : Nat
  electrodes : List ElectrodeDesp
deriving DecidableEq

/-- `len(chmap)`: the number of electrodes contained in the map. -/
def ChannelMap.length (m : ChannelMap) : Nat :=
  m.electrodes.length

/-- Modelled from the spec: the channel budget of a probe type (the spec's
"channel-count constraints"; Neuropixels-style probes have 384 readout
channels regardless of sub-type code). -/
def nChannels : Nat → Nat := fun _ => 384

/-- Modelled from the spec: `NpxProbeDesp.new_channelmap` is declared but not
implemented under src; the spec says it returns an empty map of the given
probe type. -/
def new_channelmap (t : Nat) : ChannelMap :=
  { probeType := t, electrodes := [] }

/-- Modelled from the spec: `NpxProbeDesp.probe_rule` is declared but not
implemented under src.  The spec requires a pure pairwise predicate over two
electrodes of a given map, depending on the electrodes' hardware identity;
the development is parameterized by the identity-level predicate `ruleId`
and `probe_rule` applies it to the two descriptors' identities. -/
def probe_rule (ruleId : ChannelMap → NpxId → NpxId → Bool) (m : ChannelMap)
    (e1 e2 : ElectrodeDesp) : Bool :=
  ruleId m e1.electrode e2.electrode

/-- Modelled from the spec: `NpxProbeDesp.is_valid` is declared but not
implemented under src; the spec says it is true iff every pair of distinct
used electrodes in the map is compatible under `probe_rule` and the
channel-count constraint is satisfied. -/
def is_valid (ruleId : ChannelMap → NpxId → NpxId → Bool) (m : ChannelMap) : Bool :=
  decide (m.length ≤ nChannels m.probeType) &&
    (m.electrodes.all fun e1 => m.electrodes.all fun e2 =>
      e1.electrode == e2.electrode || probe_rule ruleId m e1 e2)

/-- Codec failure: the persisted category array does not fit the universe. -/
inductive CodecErr where
  | formatErr : CodecErr
deriving DecidableEq

/-- `get_electrode`: find the descriptor with the given identity. -/
def getElectrode (s : List ElectrodeDesp) (eid : NpxId) : Option ElectrodeDesp :=
  s.find? fun e => e.electrode == eid

/-- Modelled from the spec: `NpxProbeDesp.save_blueprint` is declared but not
implemented under src; the spec says it emits one integer category code per
physical electrode, in the canonical ordering defined by `all_electrodes`
(passed here explicitly as `univ`). -/
def save_blueprint (univ s : List ElectrodeDesp) : List Nat :=
  univ.map fun u =>
    match getElectrode s u.electrode with
    | some e => e.category
    | none => CATE_UNSET

/-- Modelled from the spec: `NpxProbeDesp.load_blueprint` is declared but not
implemented under src; the spec says it zips category codes onto freshly
copied electrode descriptors of the canonical universe with
`state = UNUSED`, and fails with `FormatError` when the array length does
not match the universe size. -/
def load_blueprint (a : List Nat) (univ : List ElectrodeDesp) :
    Except CodecErr (List ElectrodeDesp) :=
  if a.length = univ.length then
    .ok ((univ.zip a).map fun p =>
      { p.1 with state := STATE_UNUSED, category := p.2 })
  else
    .error CodecErr.formatErr

/-- Reset one blueprint entry to its pre-selection state: category
`FORBIDDEN` is forced to state `FORBIDDEN`, everything else starts
`UNUSED` (spec selection policy, step 1). -/
def initE (e : ElectrodeDesp) : ElectrodeDesp :=
  if e.category == CATE_FORBIDDEN then { e with state := STATE_FORBIDDEN }
  else { e with state := STATE_UNUSED }

/-- Reset a whole blueprint to its pre-selection states. -/
def initBlueprint (bp : List ElectrodeDesp) : List ElectrodeDesp :=
  bp.map initE

/-- Number of electrodes currently marked `USED` in a blueprint. -/
def usedCount (bp : List ElectrodeDesp) : Nat :=
  (bp.filter fun e => e.state == STATE_USED).length

/-- Spec selection policy, step 2: a successful selection immediately sets
`state = FORBIDDEN` on every still-selectable electrode that is now
incompatible with the selected one under the probe rule. -/
def forbidIncompatible (ruleId : ChannelMap → NpxId → NpxId → Bool)
    (m : ChannelMap) (sel : ElectrodeDesp) (bp : List ElectrodeDesp) :
    List ElectrodeDesp :=
  bp.map fun e =>
    if e.state == STATE_UNUSED && !(ruleId m sel.electrode e.electrode) then
      { e with state := STATE_FORBIDDEN }
    else e

/-- One step of a selection tier: if the electrode at position `i` has the
tier's category, is still selectable, and the channel budget is not
exhausted, select it and propagate the probe rule. -/
def selectStep (ruleId : ChannelMap → NpxId → NpxId → Bool) (m : ChannelMap)
    (cate : Nat) (bp : List ElectrodeDesp) (i : Nat) : List ElectrodeDesp :=
  match bp[i]? with
  | none => bp
  | some e =>
    if e.category == cate && e.state == STATE_UNUSED
        && decide (usedCount bp < nChannels m.probeType) then
      forbidIncompatible ruleId m { e with state := STATE_USED }
        (bp.set i { e with state := STATE_USED })
    else bp

/-- Process one category tier over the whole blueprint in canonical order. -/
def selectTier (ruleId : ChannelMap → NpxId → NpxId → Bool) (m : ChannelMap)
    (cate : Nat) (bp : List ElectrodeDesp) : List ElectrodeDesp :=
  (List.range bp.length).foldl (selectStep ruleId m cate) bp

/-- Category processing order of the default selector: `SET` first, then
density tiers in descending density, then low-priority fill.  Electrodes
still `UNUSED` with category `UNSET` are left unselected. -/
def CATEGORY_PRIORITY : List Nat :=
  [CATE_SET, CATE_FULL, CATE_HALF, CATE_QUARTER, CATE_LOW]

/-- Modelled from the spec: the default selection algorithm
(`NpxProbeDesp.select_electrodes` is declared but not implemented under
src).  Returns the final blueprint states after running the category-driven
policy of the spec. -/
def run_select (ruleId : ChannelMap → NpxId → NpxId → Bool) (m : ChannelMap)
    (bp : List ElectrodeDesp) : List ElectrodeDesp :=
  CATEGORY_PRIORITY.foldl (fun b c => selectTier ruleId m c b) (initBlueprint bp)

/-- Modelled from the spec: `select_electrodes` consumes a blueprint and
returns a new channel map containing exactly the electrodes the policy
marked `USED`; policy outcomes are encoded in data and the function is
total so no exception can be raised. -/
def select_electrodes (ruleId : ChannelMap → NpxId → NpxId → Bool)
    (m : ChannelMap) (bp : List ElectrodeDesp) : ChannelMap :=
  { probeType := m.probeType,
    electrodes := (run_select ruleId m bp).filter fun e => e.state == STATE_USED }

/-- `selected(S, Q)` from the statistics notebook: how many electrodes are
selected in a density category.  The channel map `S` is not read; the
blueprint `Q` records the selecting information. -/
def selected (S : ChannelMap) (Q : List ElectrodeDesp) : Nat :=
  let v1 := (Q.filter fun e => e.state == STATE_USED && e.category == CATE_SET).length
  let v2 := (Q.filter fun e => e.state == STATE_USED && e.category == CATE_FULL).length
  let v3 := (Q.filter fun e => e.state == STATE_USED && e.category == CATE_HALF).length
  let v4 := (Q.filter fun e => e.state == STATE_USED && e.category == CATE_QUARTER).length
  v1 + v2 + v3 + v4

/-- `request(Q)` from the statistics notebook: how many electrodes are
requested in a density category, weighted `1, 1, 1/2, 1/4`.  Real-number
arithmetic is modelled exactly with rationals. -/
def request (Q : List ElectrodeDesp) : ℚ :=
  let v1 := (Q.filter fun e => e.category == CATE_SET).length
  let v2 := (Q.filter fun e => e.category == CATE_FULL).length
  let v3 := (Q.filter fun e => e.category == CATE_HALF).length
  let v4 := (Q.filter fun e => e.category == CATE_QUARTER).length
  (v1 : ℚ) + v2 + v3 / 2 + v4 / 4

/-- Area efficiency from the statistics notebook:
`Aeff(S|Q) = selected(S|Q) / request(Q)`, `0` if `request(Q) = 0`. -/
def Aeff (S : ChannelMap) (Q : List ElectrodeDesp) : ℚ :=
  if request Q = 0 then 0 else (selected S Q : ℚ) / request Q

/-- The scalar channel-efficiency map: `min(a, 1/a)`, `0` if `a = 0`. -/
def ceffOf (a : ℚ) : ℚ :=
  if a = 0 then 0 else min a (1 / a)

/-- Channel efficiency from the statistics notebook:
`Ceff(S|Q) = min(Aeff, 1/Aeff)`, `0` if `Aeff = 0`. -/
def Ceff (S : ChannelMap) (Q : List ElectrodeDesp) : ℚ :=
  if Aeff S Q = 0 then 0 else min (Aeff S Q) (1 / Aeff S Q)

/-- Spec-side weight of a category in the `requested` denominator:
`SET` and full-density count `1`, half `1/2`, quarter `1/4`, all other
categories `0`. -/
def cateWeightSpec (c : Nat) : ℚ :=
  if c == CATE_SET || c == CATE_FULL then 1
  else if c == CATE_HALF then 1 / 2
  else if c == CATE_QUARTER then 1 / 4
  else 0

/-- The spec's combined count of `USED` electrodes whose category is `SET`
or a density tier. -/
def selectedSpecP (e : ElectrodeDesp) : Bool :=
  e.state == STATE_USED &&
    (e.category == CATE_SET || e.category == CATE_FULL
      || e.category == CATE_HALF || e.category == CATE_QUARTER)

/-- Concrete scenario rule: two electrodes sharing a column are
incompatible. -/
def columnRule : ChannelMap → NpxId → NpxId → Bool := fun _ i1 i2 =>
  i1.2.1 != i2.2.1

/-- Concrete scenario map reference. -/
def cm0 : ChannelMap := new_channelmap 24

/-- Scenario electrode A: column 0, category `SET`. -/
def eA : ElectrodeDesp := { electrode := (0, 0, 0), category := CATE_SET }

/-- Scenario electrode B: column 0 (shares A's column), category `SET`. -/
def eB : ElectrodeDesp := { electrode := (0, 0, 1), category := CATE_SET }

/-- Scenario electrode C: column 1, category `LOW`. -/
def eC : ElectrodeDesp := { electrode := (0, 1, 0), category := CATE_LOW }

/-- Scenario electrode D: column 2, category `UNSET`. -/
def eD : ElectrodeDesp := { electrode := (0, 2, 0), category := CATE_UNSET }

/-- Witness electrode: column 0, used. -/
def eW1 : ElectrodeDesp :=
  { electrode := (0, 0, 0), state := STATE_USED, category := CATE_SET }

/-- Witness electrode: column 1, used. -/
def eW2 : ElectrodeDesp :=
  { electrode := (0, 1, 0), state := STATE_USED, category := CATE_LOW }

/-- Witness channel map holding two used electrodes on distinct columns. -/
def cmW : ChannelMap := { probeType := 24, electrodes := [eW1, eW2] }

/-! ### Helper lemmas -/

theorem countP_four_disjoint {α : Type} (p1 p2 p3 p4 : α → Bool)
    (h : ∀ a, (if p1 a then 1 else 0) + (if p2 a then 1 else 0)
        + (if p3 a then 1 else 0) + (if p4 a then 1 else 0)
      = if p1 a || p2 a || p3 a || p4 a then 1 else 0) (l : List α) :
    l.countP p1 + l.countP p2 + l.countP p3 + l.countP p4
      = l.countP fun a => p1 a || p2 a || p3 a || p4 a := by
  induction l with
  | nil => simp
  | cons a l ih =>
    simp only [List.countP_cons]
    have := h a
    omega

theorem selected_unfold (S : ChannelMap) (Q : List ElectrodeDesp) :
    selected S Q
      = (Q.countP fun e => e.state == STATE_USED && e.category == CATE_SET)
      + (Q.countP fun e => e.state == STATE_USED && e.category == CATE_FULL)
      + (Q.countP fun e => e.state == STATE_USED && e.category == CATE_HALF)
      + (Q.countP fun e => e.state == STATE_USED && e.category == CATE_QUARTER) := by
  simp [selected, List.countP_eq_length_filter]

theorem request_unfold (Q : List ElectrodeDesp) :
    request Q
      = ((Q.countP fun e => e.category == CATE_SET : Nat) : ℚ)
      + ((Q.countP fun e => e.category == CATE_FULL : Nat) : ℚ)
      + ((Q.countP fun e => e.category == CATE_HALF : Nat) : ℚ) / 2
      + ((Q.countP fun e => e.category == CATE_QUARTER : Nat) : ℚ) / 4 := by
  simp [request, List.countP_eq_length_filter]

theorem selected_eq_filter (S : ChannelMap) (Q : List ElectrodeDesp) :
    selected S Q = (Q.filter selectedSpecP).length := by
  rw [selected_unfold, ← List.countP_eq_length_filter]
  rw [countP_four_disjoint]
  · apply List.countP_congr
    intro e _
    simp only [selectedSpecP]
    cases hs : (e.state == STATE_USED) <;> simp
  · intro e
    by_cases hs : (e.state == STATE_USED)
    · by_cases h1 : (e.category == CATE_SET) <;>
      by_cases h2 : (e.category == CATE_FULL) <;>
      by_cases h3 : (e.category == CATE_HALF) <;>
      by_cases h4 : (e.category == CATE_QUARTER) <;>
      simp_all [CATE_SET, CATE_FULL, CATE_HALF, CATE_QUARTER]
    · simp [hs]

theorem request_eq_sum (Q : List ElectrodeDesp) :
    request Q = (Q.map fun e => cateWeightSpec e.category).sum := by
  induction Q with
  | nil => simp [request_unfold]
  | cons e Q ih =>
    rw [request_unfold] at ih ⊢
    simp only [List.countP_cons, List.map_cons, List.sum_cons]
    rw [← ih]
    by_cases h1 : e.category = CATE_SET <;>
    by_cases h2 : e.category = CATE_FULL <;>
    by_cases h3 : e.category = CATE_HALF <;>
    by_cases h4 : e.category = CATE_QUARTER <;>
    first
    | omega
    | (simp only [CATE_SET, CATE_FULL, CATE_HALF, CATE_QUARTER] at h1 h2 h3 h4 ⊢ <;>
       simp only [cateWeightSpec, CATE_SET, CATE_FULL, CATE_HALF, CATE_QUARTER,
         h1, h2, h3, h4, if_true, if_false, ite_true, ite_false, if_neg, if_pos,
         or_self, or_false, false_or, or_true, true_or] <;>
       simp [h1, h2, h3, h4] <;> push_cast <;> ring)

theorem request_nonneg (Q : List ElectrodeDesp) : 0 ≤ request Q := by
  rw [request_unfold]
  positivity

theorem Aeff_nonneg (S : ChannelMap) (Q : List ElectrodeDesp) : 0 ≤ Aeff S Q := by
  unfold Aeff
  split
  · exact le_refl 0
  · exact div_nonneg (Nat.cast_nonneg _) (request_nonneg Q)

theorem ceffOf_nonneg {a : ℚ} (ha : 0 ≤ a) : 0 ≤ ceffOf a := by
  unfold ceffOf
  split
  · exact le_refl 0
  · exact le_min ha (one_div_nonneg.mpr ha)

theorem ceffOf_le_one {a : ℚ} (ha : 0 ≤ a) : ceffOf a ≤ 1 := by
  unfold ceffOf
  split
  · exact zero_le_one
  · rename_i h
    rcases le_or_lt a 1 with h1 | h1
    · exact (min_le_left _ _).trans h1
    · refine (min_le_right _ _).trans ?_
      rw [div_le_one (by linarith)]
      linarith

theorem ceffOf_one_div (a : ℚ) : ceffOf (1 / a) = ceffOf a := by
  unfold ceffOf
  by_cases h : a = 0
  · simp [h]
  · rw [if_neg (one_div_ne_zero h), if_neg h, one_div_one_div, min_comm]

theorem getElectrode_eq_of_nodup {s : List ElectrodeDesp} {e : ElectrodeDesp}
    (hnd : (s.map ElectrodeDesp.electrode).Nodup) (he : e ∈ s) :
    getElectrode s e.electrode = some e := by
  induction s with
  | nil => cases he
  | cons a s ih =>
    rw [List.map_cons, List.nodup_cons] at hnd
    rcases hnd with ⟨hna, hnd⟩
    rcases List.mem_cons.mp he with rfl | he2
    · unfold getElectrode
      exact List.find?_cons_of_pos _ (by simp)
    · have hne : ¬(a.electrode == e.electrode) = true := by
        simp only [beq_iff_eq]
        intro hEq
        exact hna (hEq ▸ List.mem_map_of_mem ElectrodeDesp.electrode he2)
      have hstep : List.find? (fun x => x.electrode == e.electrode) (a :: s)
          = List.find? (fun x => x.electrode == e.electrode) s :=
        List.find?_cons_of_neg _ hne
      unfold getElectrode at ih ⊢
      rw [hstep]
      exact ih hnd he2

theorem loadRes_map_electrode (univ : List ElectrodeDesp) (a : List Nat)
    (h : a.length = univ.length) :
    ((univ.zip a).map fun p =>
        { p.1 with state := STATE_UNUSED, category := p.2 }).map
      ElectrodeDesp.electrode = univ.map ElectrodeDesp.electrode := by
  induction univ generalizing a with
  | nil => simp
  | cons u univ ih =>
    cases a with
    | nil => simp at h
    | cons c a =>
      simp only [List.zip_cons_cons, List.map_cons, List.cons.injEq]
      refine ⟨by simp, ih a (by simpa using h)⟩

theorem getElectrode_load (univ : List ElectrodeDesp) (a : List Nat)
    (h : a.length = univ.length)
    (hU : (univ.map ElectrodeDesp.electrode).Nodup)
    (j : Nat) (hj : j < univ.length) (hja : j < a.length) :
    getElectrode ((univ.zip a).map fun p =>
        { p.1 with state := STATE_UNUSED, category := p.2 })
      (univ.get ⟨j, hj⟩).electrode
      = some { univ.get ⟨j, hj⟩ with
               state := STATE_UNUSED
               category := a.get ⟨j, hja⟩ } := by
  have hjB : j < ((univ.zip a).map fun p =>
      { p.1 with state := STATE_UNUSED, category := p.2 }).length := by
    rw [List.length_map, List.length_zip, h, min_self]
    exact hj
  have hbval : ((univ.zip a).map fun p =>
        { p.1 with state := STATE_UNUSED, category := p.2 }).get ⟨j, hjB⟩
      = { univ.get ⟨j, hj⟩ with
          state := STATE_UNUSED
          category := a.get ⟨j, hja⟩ } := by
    simp only [List.get_eq_getElem, List.getElem_map, List.getElem_zip]
  have hBnd : ((((univ.zip a).map fun p =>
      { p.1 with state := STATE_UNUSED, category := p.2 })).map
        ElectrodeDesp.electrode).Nodup := by
    rw [loadRes_map_electrode univ a h]
    exact hU
  have hmem := List.get_mem ((univ.zip a).map fun p =>
      { p.1 with state := STATE_UNUSED, category := p.2 }) j hjB
  have hfind := getElectrode_eq_of_nodup hBnd hmem
  rw [hbval] at hfind
  exact hfind

theorem initE_category (e : ElectrodeDesp) : (initE e).category = e.category := by
  unfold initE
  split <;> rfl

theorem initE_electrode (e : ElectrodeDesp) : (initE e).electrode = e.electrode := by
  unfold initE
  split <;> rfl

theorem initE_of_set {e : ElectrodeDesp} (h : e.category = CATE_SET) :
    initE e = { e with state := STATE_UNUSED } := by
  unfold initE
  rw [if_neg]
  simp [h, CATE_SET, CATE_FORBIDDEN]

theorem getElem?_initBlueprint (bp : List ElectrodeDesp) (j : Nat) :
    (initBlueprint bp)[j]? = (bp[j]?).map initE := by
  rw [initBlueprint, List.getElem?_map]

theorem usedCount_initBlueprint (bp : List ElectrodeDesp) :
    usedCount (initBlueprint bp) = 0 := by
  unfold usedCount initBlueprint
  rw [List.length_eq_zero, List.filter_eq_nil_iff]
  intro e hesub
  rcases List.mem_map.mp hesub with ⟨x, -, rfl⟩
  unfold initE
  split <;> simp [STATE_USED, STATE_FORBIDDEN, STATE_UNUSED]

theorem getElem?_forbidIncompatible (r : ChannelMap → NpxId → NpxId → Bool)
    (m : ChannelMap) (sel : ElectrodeDesp) (bp : List ElectrodeDesp) (j : Nat) :
    (forbidIncompatible r m sel bp)[j]? = (bp[j]?).map fun e =>
      if e.state == STATE_UNUSED && !(r m sel.electrode e.electrode) then
        { e with state := STATE_FORBIDDEN }
      else e := by
  rw [forbidIncompatible, List.getElem?_map]

theorem selectStep_eq_none {r : ChannelMap → NpxId → NpxId → Bool}
    {m : ChannelMap} {c : Nat} {bp : List ElectrodeDesp} {i : Nat}
    (he : bp[i]? = none) : selectStep r m c bp i = bp := by
  unfold selectStep
  rw [he]

theorem selectStep_eq_some {r : ChannelMap → NpxId → NpxId → Bool}
    {m : ChannelMap} {c : Nat} {bp : List ElectrodeDesp} {i : Nat}
    {e : ElectrodeDesp} (he : bp[i]? = some e) :
    selectStep r m c bp i
      = if (e.category == c && e.state == STATE_UNUSED
            && decide (usedCount bp < nChannels m.probeType)) = true then
          forbidIncompatible r m { e with state := STATE_USED }
            (bp.set i { e with state := STATE_USED })
        else bp := by
  unfold selectStep
  rw [he]

theorem selectStep_preserve {r : ChannelMap → NpxId → NpxId → Bool}
    {m : ChannelMap} {c : Nat} {bp : List ElectrodeDesp} {i j : Nat}
    {v : ElectrodeDesp} (hv : bp[j]? = some v) (hs : v.state ≠ STATE_UNUSED) :
    (selectStep r m c bp i)[j]? = some v := by
  cases he : bp[i]? with
  | none =>
    rw [selectStep_eq_none he]
    exact hv
  | some e =>
    rw [selectStep_eq_some he]
    split
    · rename_i hcond
      simp only [Bool.and_eq_true, beq_iff_eq, decide_eq_true_eq] at hcond
      have hij : i ≠ j := by
        intro hEq
        subst hEq
        rw [hv] at he
        cases he
        exact hs hcond.1.2
      rw [getElem?_forbidIncompatible, List.getElem?_set_ne hij, hv]
      simp [hs]
    · exact hv

theorem foldl_selectStep_preserve {r : ChannelMap → NpxId → NpxId → Bool}
    {m : ChannelMap} {c : Nat} {l : List Nat} {bp : List ElectrodeDesp}
    {j : Nat} {v : ElectrodeDesp}
    (hv : bp[j]? = some v) (hs : v.state ≠ STATE_UNUSED) :
    (l.foldl (selectStep r m c) bp)[j]? = some v := by
  induction l generalizing bp with
  | nil => exact hv
  | cons i l ih => exact ih (selectStep_preserve hv hs)

theorem selectTier_preserve {r : ChannelMap → NpxId → NpxId → Bool}
    {m : ChannelMap} {c : Nat} {bp : List ElectrodeDesp} {j : Nat}
    {v : ElectrodeDesp} (hv : bp[j]? = some v) (hs : v.state ≠ STATE_UNUSED) :
    (selectTier r m c bp)[j]? = some v :=
  foldl_selectStep_preserve hv hs

theorem foldl_selectTier_preserve {r : ChannelMap → NpxId → NpxId → Bool}
    {m : ChannelMap} {cs : List Nat} {bp : List ElectrodeDesp} {j : Nat}
    {v : ElectrodeDesp} (hv : bp[j]? = some v) (hs : v.state ≠ STATE_UNUSED) :
    (cs.foldl (fun b c => selectTier r m c b) bp)[j]? = some v := by
  induction cs generalizing bp with
  | nil => exact hv
  | cons c cs ih => exact ih (selectTier_preserve hv hs)

theorem foldl_fix {α β : Type} (f : α → β → α) (b : α) (l : List β)
    (h : ∀ x ∈ l, f b x = b) : l.foldl f b = b := by
  induction l with
  | nil => rfl
  | cons x l ih =>
    rw [List.foldl_cons, h x (List.mem_cons_self x l)]
    exact ih fun y hy => h y (List.mem_cons_of_mem x hy)

theorem selectStep_noop {r : ChannelMap → NpxId → NpxId → Bool}
    {m : ChannelMap} {c : Nat} {bp : List ElectrodeDesp} {i : Nat}
    (h : ∀ e, bp[i]? = some e → e.category = c → e.state ≠ STATE_UNUSED) :
    selectStep r m c bp i = bp := by
  cases he : bp[i]? with
  | none => exact selectStep_eq_none he
  | some e =>
    have hcond : ¬(e.category == c && e.state == STATE_UNUSED
        && decide (usedCount bp < nChannels m.probeType)) = true := by
      simp only [Bool.and_eq_true, beq_iff_eq, decide_eq_true_eq]
      intro hcontra
      exact h e he hcontra.1.1 hcontra.1.2
    rw [selectStep_eq_some he, if_neg hcond]

theorem range_split (n i : Nat) (h : i < n) :
    List.range n
      = List.range i ++ i :: (List.range (n - i - 1)).map fun k => i + 1 + k := by
  have h1 : n = i + (1 + (n - i - 1)) := by omega
  conv_lhs => rw [h1, List.range_add, List.range_add]
  congr 1
  have hr1 : List.range 1 = [0] := rfl
  rw [hr1]
  simp only [List.map_append, List.map_cons, List.map_nil, List.map_map,
    Nat.add_zero, List.cons_append, List.nil_append]
  congr 1
  apply List.map_congr_left
  intro a _
  simp [Function.comp]
  omega

theorem selectTier_first_set
    (r : ChannelMap → NpxId → NpxId → Bool) (m : ChannelMap)
    (bp : List ElectrodeDesp) (i0 : Nat) (e0 : ElectrodeDesp)
    (h0 : bp[i0]? = some e0)
    (hc : e0.category = CATE_SET)
    (hs0 : e0.state = STATE_UNUSED)
    (hcnt : usedCount bp < nChannels m.probeType)
    (hfirst : ∀ j e, j < i0 → bp[j]? = some e → e.category ≠ CATE_SET)
    (hother : ∀ j e, j ≠ i0 → bp[j]? = some e → e.category = CATE_SET →
        e.state = STATE_UNUSED ∧ r m e0.electrode e.electrode = false) :
    selectTier r m CATE_SET bp
      = forbidIncompatible r m { e0 with state := STATE_USED }
          (bp.set i0 { e0 with state := STATE_USED }) := by
  have hi0 : i0 < bp.length := by
    by_contra hcon
    rw [List.getElem?_eq_none (by omega)] at h0
    cases h0
  have hpre : ∀ x ∈ List.range i0, selectStep r m CATE_SET bp x = bp := by
    intro x hx
    have hxlt : x < i0 := List.mem_range.mp hx
    apply selectStep_noop
    intro e he hcat
    exact absurd hcat (hfirst x e hxlt he)
  have hcnd : (e0.category == CATE_SET && e0.state == STATE_UNUSED
      && decide (usedCount bp < nChannels m.probeType)) = true := by
    simp [hc, hs0, hcnt]
  unfold selectTier
  rw [range_split bp.length i0 hi0, List.foldl_append, foldl_fix _ _ _ hpre,
      List.foldl_cons, selectStep_eq_some h0, if_pos hcnd]
  apply foldl_fix
  intro x hx
  rcases List.mem_map.mp hx with ⟨k, hk, rfl⟩
  have hxne : i0 + 1 + k ≠ i0 := by omega
  have hine : i0 ≠ i0 + 1 + k := by omega
  apply selectStep_noop
  intro e' he' hcat'
  rw [getElem?_forbidIncompatible, List.getElem?_set_ne hine] at he'
  cases hbx : bp[i0 + 1 + k]? with
  | none =>
    rw [hbx] at he'
    cases he'
  | some eb =>
    rw [hbx] at he'
    simp only [Option.map_some'] at he'
    injection he' with he2
    subst he2
    by_cases hcond : (eb.state == STATE_UNUSED
        && !(r m ({ e0 with state := STATE_USED }).electrode eb.electrode)) = true
    · rw [if_pos hcond]
      simp [STATE_FORBIDDEN, STATE_UNUSED]
    · rw [if_neg hcond]
      rw [if_neg hcond] at hcat'
      rcases hother (i0 + 1 + k) eb hxne hbx hcat' with ⟨hsb, hrb⟩
      exfalso
      apply hcond
      simp [hsb, hrb]

/-! ### Claim theorems -/

/-- C2: area efficiency.  `selected` is the unweighted count of `USED`
electrodes whose category is `SET`, full, half or quarter; `request` is the
weighted sum counting `SET` and full with weight `1`, half with `1/2` and
quarter with `1/4`; and `Aeff = selected / request`, `0` when
`request = 0`. -/
theorem Aeff_area_efficiency (S : ChannelMap) (Q : List ElectrodeDesp) :
    selected S Q = (Q.filter selectedSpecP).length ∧
    request Q = (Q.map fun e => cateWeightSpec e.category).sum ∧
    Aeff S Q = if request Q = 0 then 0 else (selected S Q : ℚ) / request Q :=
  ⟨selected_eq_filter S Q, request_eq_sum Q, rfl⟩

/-- C3: channel efficiency.  `Ceff` is `min(Aeff, 1/Aeff)` with `0` at
`Aeff = 0` (the factored map `ceffOf`), it always lies in `[0, 1]`, and it
is symmetric under replacing the argument by its reciprocal. -/
theorem Ceff_channel_efficiency (S : ChannelMap) (Q : List ElectrodeDesp) (a : ℚ) :
    Ceff S Q = ceffOf (Aeff S Q) ∧
    0 ≤ Ceff S Q ∧ Ceff S Q ≤ 1 ∧
    ceffOf (1 / a) = ceffOf a := by
  have h : Ceff S Q = ceffOf (Aeff S Q) := rfl
  refine ⟨h, ?_, ?_, ceffOf_one_div a⟩
  · rw [h]; exact ceffOf_nonneg (Aeff_nonneg S Q)
  · rw [h]; exact ceffOf_le_one (Aeff_nonneg S Q)

/-- C4: for every probe type code, `new_channelmap` returns a map of length
`0` containing no electrodes, and `is_valid` holds on it for every probe
rule. -/
theorem new_channelmap_empty_and_valid (t : Nat)
    (ruleId : ChannelMap → NpxId → NpxId → Bool) :
    (new_channelmap t).length = 0 ∧ is_valid ruleId (new_channelmap t) = true :=
  ⟨rfl, rfl⟩

/-- C7: concrete selection scenario over the universe `[A, B, C, D]` with
the column rule: `A` (`SET`) is selected first in canonical order, `B`
(`SET`, sharing `A`'s column) is forced to `FORBIDDEN` by rule propagation,
`C` (`LOW`, rule-compatible with `A`) is selected, and `D` (`UNSET`) is
left `UNUSED`; the returned map contains exactly `A` and `C`. -/
theorem concrete_selection_scenario :
    (run_select columnRule cm0 [eA, eB, eC, eD]).map ElectrodeDesp.state
      = [STATE_USED, STATE_FORBIDDEN, STATE_USED, STATE_UNUSED] ∧
    (select_electrodes columnRule cm0 [eA, eB, eC, eD]).electrodes.map
        ElectrodeDesp.electrode = [eA.electrode, eC.electrode] :=
  ⟨rfl, rfl⟩

/-- C9: electrode descriptor equality is identity equality — `eqDesp` holds
iff the identities are equal, and replacing every non-identity field
(`x`, `y`, `channel`, `state`, `category`) changes neither the equality
test nor the hash; the hash is a function of the identity alone. -/
theorem electrode_equality_identity_only (e1 e2 : ElectrodeDesp) :
    (ElectrodeDesp.eqDesp e1 e2 = true ↔ e1.electrode = e2.electrode) ∧
    ElectrodeDesp.eqDesp
        { e1 with x := e2.x, y := e2.y, channel := e2.channel,
                  state := e2.state, category := e2.category } e2
      = ElectrodeDesp.eqDesp e1 e2 ∧
    ElectrodeDesp.hashDesp
        { e1 with x := e2.x, y := e2.y, channel := e2.channel,
                  state := e2.state, category := e2.category }
      = ElectrodeDesp.hashDesp e1 ∧
    ElectrodeDesp.hashDesp e1 = idHash e1.electrode := by
  refine ⟨?_, rfl, rfl, rfl⟩
  simp [ElectrodeDesp.eqDesp]

/-- C10: the efficiency reporting functions never read the resulting
channel map — `selected` and hence `Aeff` give the same value for any two
maps over the same blueprint. -/
theorem efficiency_ignores_channelmap (Q : List ElectrodeDesp)
    (S1 S2 : ChannelMap) :
    selected S1 Q = selected S2 Q ∧ Aeff S1 Q = Aeff S2 Q :=
  ⟨rfl, rfl⟩

/-- C1: blueprint codec round-trip.  For an electrode list `E` whose
identities are a permutation of a duplicate-free canonical universe,
loading the saved blueprint over that universe succeeds and yields, for
every electrode of `E`, a descriptor of equal identity carrying the same
category code — independently of the ordering of `E`, whose entries are
only constrained up to permutation — while every returned state is reset
to `UNUSED` (state is not preserved). -/
theorem blueprint_roundtrip (univ E : List ElectrodeDesp)
    (hU : (univ.map ElectrodeDesp.electrode).Nodup)
    (hperm : (E.map ElectrodeDesp.electrode).Perm
      (univ.map ElectrodeDesp.electrode)) :
    ∃ B, load_blueprint (save_blueprint univ E) univ = .ok B ∧
      B.length = univ.length ∧
      (∀ b ∈ B, b.state = STATE_UNUSED) ∧
      (∀ e ∈ E, ∃ b, getElectrode B e.electrode = some b ∧
        b.category = e.category) := by
  have hlen : (save_blueprint univ E).length = univ.length := by
    simp [save_blueprint]
  refine ⟨(univ.zip (save_blueprint univ E)).map
      (fun p => { p.1 with state := STATE_UNUSED, category := p.2 }),
    by rw [load_blueprint, if_pos hlen],
    by rw [List.length_map, List.length_zip, hlen, min_self], ?_, ?_⟩
  · intro b hb
    rcases List.mem_map.mp hb with ⟨p, -, rfl⟩
    rfl
  · intro e he
    have hE : (E.map ElectrodeDesp.electrode).Nodup := hperm.symm.nodup hU
    have hmem : e.electrode ∈ univ.map ElectrodeDesp.electrode :=
      hperm.subset (List.mem_map_of_mem _ he)
    rcases List.mem_map.mp hmem with ⟨u, hu, hue⟩
    rcases List.mem_iff_get.mp hu with ⟨⟨j, hj⟩, hgu⟩
    have hja : j < (save_blueprint univ E).length := by
      rw [hlen]
      exact hj
    have hfind := getElectrode_load univ (save_blueprint univ E) hlen hU j hj hja
    rw [hgu] at hfind
    rw [hue] at hfind
    have hacat : (save_blueprint univ E).get ⟨j, hja⟩ = e.category := by
      simp only [save_blueprint, List.get_eq_getElem, List.getElem_map]
      have h2 : univ[j].electrode = e.electrode := by
        have h3 : (univ.get ⟨j, hj⟩).electrode = e.electrode := by
          rw [hgu]
          exact hue
        exact h3
      rw [h2, getElectrode_eq_of_nodup hE he]
    refine ⟨_, hfind, ?_⟩
    show (save_blueprint univ E).get ⟨j, hja⟩ = e.category
    exact hacat

/-- Witness for C1 at a concrete four-electrode universe and a permuted
input list. -/
theorem blueprint_roundtrip_witness :
    (([eA, eB, eC, eD].map ElectrodeDesp.electrode).Nodup ∧
      ([eD, eB, eA, eC].map ElectrodeDesp.electrode).Perm
        ([eA, eB, eC, eD].map ElectrodeDesp.electrode)) ∧
    ∃ B, load_blueprint (save_blueprint [eA, eB, eC, eD] [eD, eB, eA, eC])
        [eA, eB, eC, eD] = .ok B ∧
      B.length = ([eA, eB, eC, eD] : List ElectrodeDesp).length ∧
      (∀ b ∈ B, b.state = STATE_UNUSED) ∧
      (∀ e ∈ [eD, eB, eA, eC], ∃ b, getElectrode B e.electrode = some b ∧
        b.category = e.category) :=
  ⟨⟨by decide, by decide⟩,
    blueprint_roundtrip [eA, eB, eC, eD] [eD, eB, eA, eC] (by decide) (by decide)⟩

/-- C5: validity implies pairwise compatibility — whenever `is_valid` holds
on a channel map, every pair of identity-distinct used electrodes contained
in it satisfies `probe_rule`. -/
theorem is_valid_implies_pairwise (ruleId : ChannelMap → NpxId → NpxId → Bool)
    (M : ChannelMap) (h : is_valid ruleId M = true) :
    ∀ e1 ∈ M.electrodes, ∀ e2 ∈ M.electrodes,
      e1.electrode ≠ e2.electrode → probe_rule ruleId M e1 e2 = true := by
  intro e1 h1 e2 h2 hne
  simp only [is_valid, Bool.and_eq_true, List.all_eq_true] at h
  rcases h with ⟨-, hall⟩
  have hp := hall e1 h1 e2 h2
  simp only [Bool.or_eq_true, beq_iff_eq] at hp
  rcases hp with hp | hp
  · exact absurd hp hne
  · exact hp

/-- Witness for C5 at a concrete valid two-electrode map. -/
theorem is_valid_implies_pairwise_witness :
    is_valid columnRule cmW = true ∧ eW1 ∈ cmW.electrodes ∧
    eW2 ∈ cmW.electrodes ∧ eW1.electrode ≠ eW2.electrode ∧
    probe_rule columnRule cmW eW1 eW2 = true :=
  ⟨by decide, by decide, by decide, by decide,
    is_valid_implies_pairwise columnRule cmW (by decide) eW1 (by decide) eW2
      (by decide) (by decide)⟩

/-- C8: `load_blueprint` fails with the format error exactly when the
category array length differs from the universe size; on success every
returned descriptor is the corresponding universe descriptor freshly copied
with `state = UNUSED` and the category code zipped on in canonical order. -/
theorem load_blueprint_format (a : List Nat) (univ : List ElectrodeDesp) :
    (load_blueprint a univ = .error CodecErr.formatErr ↔ a.length ≠ univ.length) ∧
    ∀ B, load_blueprint a univ = .ok B →
      B.length = univ.length ∧
      ∀ i (h1 : i < B.length) (h2 : i < univ.length) (h3 : i < a.length),
        B.get ⟨i, h1⟩ = { univ.get ⟨i, h2⟩ with
                          state := STATE_UNUSED
                          category := a.get ⟨i, h3⟩ } := by
  unfold load_blueprint
  by_cases h : a.length = univ.length
  · rw [if_pos h]
    refine ⟨⟨(fun hcontra => by cases hcontra), fun hne => absurd h hne⟩, ?_⟩
    intro B hB
    cases hB
    constructor
    · rw [List.length_map, List.length_zip, h, min_self]
    · intro i h1 h2 h3
      simp only [List.get_eq_getElem, List.getElem_map, List.getElem_zip]
  · rw [if_neg h]
    exact ⟨⟨fun _ => h, fun _ => rfl⟩, fun B hB => by cases hB⟩

/-- Witness for C8: a matching-length load succeeds and reproduces the
universe entry with the new category, and a mismatched load fails. -/
theorem load_blueprint_format_witness :
    (load_blueprint [3, 2] [eA, eB] = .error CodecErr.formatErr ↔
      ([3, 2] : List Nat).length ≠ ([eA, eB] : List ElectrodeDesp).length) ∧
    (((load_blueprint [3] [eA]).toOption.getD []).length = [eA].length ∧
      ((load_blueprint [3] [eA]).toOption.getD []).get ⟨0, by decide⟩
        = { eA with state := STATE_UNUSED, category := 3 }) := by
  refine ⟨(load_blueprint_format [3, 2] [eA, eB]).1, ?_, ?_⟩
  · exact ((load_blueprint_format [3] [eA]).2
      ((load_blueprint [3] [eA]).toOption.getD []) rfl).1
  · exact ((load_blueprint_format [3] [eA]).2
      ((load_blueprint [3] [eA]).toOption.getD []) rfl).2 0 (by decide) (by decide)
      (by decide)

/-- C6 (amended): a conflict among mutually incompatible `SET` electrodes
is resolved by canonical-order priority — the first `SET` electrode in
canonical order ends up `USED` while every later conflicting `SET`
electrode is not selected and is forced to state `FORBIDDEN` by rule
propagation; the selector is a total function whose outcome is observable
only through the returned map, namely the final blueprint entries marked
`USED`. -/
theorem conflicting_set_resolution
    (ruleId : ChannelMap → NpxId → NpxId → Bool) (m : ChannelMap)
    (bp : List ElectrodeDesp) (i0 : Nat) (e0 : ElectrodeDesp)
    (h0 : bp[i0]? = some e0)
    (hc : e0.category = CATE_SET)
    (hfirst : ∀ j e, j < i0 → bp[j]? = some e → e.category ≠ CATE_SET)
    (hmut : ∀ j e, j ≠ i0 → bp[j]? = some e → e.category = CATE_SET →
        ruleId m e0.electrode e.electrode = false) :
    ((run_select ruleId m bp)[i0]?).map ElectrodeDesp.state
      = some STATE_USED ∧
    (∀ j e, j ≠ i0 → bp[j]? = some e → e.category = CATE_SET →
        ((run_select ruleId m bp)[j]?).map ElectrodeDesp.state
          = some STATE_FORBIDDEN) ∧
    (select_electrodes ruleId m bp).electrodes
      = (run_select ruleId m bp).filter fun e => e.state == STATE_USED := by
  have hi0 : i0 < bp.length := by
    by_contra hcon
    rw [List.getElem?_eq_none (by omega)] at h0
    cases h0
  have hi0e : (initBlueprint bp)[i0]? = some (initE e0) := by
    rw [getElem?_initBlueprint, h0]
    rfl
  have hc' : (initE e0).category = CATE_SET := by
    rw [initE_category]
    exact hc
  have hs0' : (initE e0).state = STATE_UNUSED := by
    rw [initE_of_set hc]
  have hcnt' : usedCount (initBlueprint bp) < nChannels m.probeType := by
    rw [usedCount_initBlueprint]
    show 0 < 384
    decide
  have hfirst' : ∀ j e, j < i0 → (initBlueprint bp)[j]? = some e →
      e.category ≠ CATE_SET := by
    intro j e hj he
    rw [getElem?_initBlueprint] at he
    cases hbj : bp[j]? with
    | none =>
      rw [hbj] at he
      cases he
    | some eb =>
      rw [hbj] at he
      simp only [Option.map_some'] at he
      injection he with he2
      subst he2
      rw [initE_category]
      exact hfirst j eb hj hbj
  have hother' : ∀ j e, j ≠ i0 → (initBlueprint bp)[j]? = some e →
      e.category = CATE_SET →
      e.state = STATE_UNUSED ∧
        ruleId m (initE e0).electrode e.electrode = false := by
    intro j e hne he hcat
    rw [getElem?_initBlueprint] at he
    cases hbj : bp[j]? with
    | none =>
      rw [hbj] at he
      cases he
    | some eb =>
      rw [hbj] at he
      simp only [Option.map_some'] at he
      injection he with he2
      subst he2
      rw [initE_category] at hcat
      refine ⟨by rw [initE_of_set hcat], ?_⟩
      rw [initE_electrode, initE_electrode]
      exact hmut j eb hne hbj hcat
  have htier := selectTier_first_set ruleId m (initBlueprint bp) i0 (initE e0)
    hi0e hc' hs0' hcnt' hfirst' hother'
  have hrun : run_select ruleId m bp
      = [CATE_FULL, CATE_HALF, CATE_QUARTER, CATE_LOW].foldl
          (fun b c => selectTier ruleId m c b)
          (forbidIncompatible ruleId m { initE e0 with state := STATE_USED }
            ((initBlueprint bp).set i0 { initE e0 with state := STATE_USED })) := by
    rw [run_select, CATEGORY_PRIORITY, List.foldl_cons, htier]
  have hlen0 : i0 < (initBlueprint bp).length := by
    rw [initBlueprint, List.length_map]
    exact hi0
  have hseli0 : (forbidIncompatible ruleId m { initE e0 with state := STATE_USED }
      ((initBlueprint bp).set i0 { initE e0 with state := STATE_USED }))[i0]?
        = some { initE e0 with state := STATE_USED } := by
    rw [getElem?_forbidIncompatible, List.getElem?_set_self hlen0]
    simp [STATE_USED, STATE_UNUSED]
  have hfinal_i0 : (run_select ruleId m bp)[i0]?
      = some { initE e0 with state := STATE_USED } := by
    rw [hrun]
    exact foldl_selectTier_preserve hseli0 (by simp [STATE_USED, STATE_UNUSED])
  refine ⟨by rw [hfinal_i0]; rfl, ?_, rfl⟩
  intro j e hne he hcat
  have hjinit : (initBlueprint bp)[j]? = some (initE e) := by
    rw [getElem?_initBlueprint, he]
    rfl
  have hine : i0 ≠ j := Ne.symm hne
  have hbj2 : (forbidIncompatible ruleId m { initE e0 with state := STATE_USED }
      ((initBlueprint bp).set i0 { initE e0 with state := STATE_USED }))[j]?
        = some { initE e with state := STATE_FORBIDDEN } := by
    rw [getElem?_forbidIncompatible, List.getElem?_set_ne hine, hjinit]
    simp only [Option.map_some']
    rw [if_pos]
    rw [initE_of_set hcat, initE_electrode]
    simp [hmut j e hne he hcat, STATE_UNUSED]
  have hfinal_j : (run_select ruleId m bp)[j]?
      = some { initE e with state := STATE_FORBIDDEN } := by
    rw [hrun]
    exact foldl_selectTier_preserve hbj2 (by simp [STATE_FORBIDDEN, STATE_UNUSED])
  rw [hfinal_j]
  rfl

/-- Witness for C6's amended theorem at the concrete conflicting blueprint
`[A, B]` (both `SET`, sharing a column) under the column rule. -/
theorem conflicting_set_resolution_witness :
    ((run_select columnRule cm0 [eA, eB])[0]?).map ElectrodeDesp.state
      = some STATE_USED ∧
    (∀ j e, j ≠ 0 → ([eA, eB] : List ElectrodeDesp)[j]? = some e →
        e.category = CATE_SET →
        ((run_select columnRule cm0 [eA, eB])[j]?).map ElectrodeDesp.state
          = some STATE_FORBIDDEN) ∧
    (select_electrodes columnRule cm0 [eA, eB]).electrodes
      = (run_select columnRule cm0 [eA, eB]).filter
          fun e => e.state == STATE_USED :=
  conflicting_set_resolution columnRule cm0 [eA, eB] 0 eA rfl rfl
    (fun j e hj _ => absurd hj (Nat.not_lt_zero j))
    (fun j e hne he _ =>
      match j, hne, he with
      | 0, hne, _ => absurd rfl hne
      | 1, _, he => by
          cases he
          rfl
      | (k + 2), _, he => by cases he)

/-- C6 counterexample: on the blueprint `[A, B]` whose two `SET` electrodes
share a column, the later conflicting electrode `B` ends in state
`FORBIDDEN`, not `UNUSED` — refuting the claim that it remains `UNUSED`. -/
theorem conflicting_set_counterexample :
    (run_select columnRule cm0 [eA, eB]).map ElectrodeDesp.state
      = [STATE_USED, STATE_FORBIDDEN] ∧ STATE_FORBIDDEN ≠ STATE_UNUSED :=
  ⟨rfl, by decide⟩

end Neurocarto
